import Mathlib

/-!
Verification development for the git-history ingestion pipeline of pkgcheck
(`src/pkgcheck/git.py`).  The Python module is shallowly embedded: the external
git oracle's decoded output is passed in as a list of lines (one element per
line, trailing newline removed), subprocess results are passed in as explicit
values, and pure functions are translated directly.
-/

/-- Package atom value.  The external pkgcore atom type is opaque to this
module; the three fields read by `git.py` (`category`, `package`, `fullver`)
are the ones modelled.  `fullver` is `""` for unversioned atoms. -/
structure Atom where
  category : String
  package : String
  fullver : String
  deriving DecidableEq

/-- Splits a package-version string at the last hyphen that is followed by a
digit, the way pkgcore separates a package name from its version.  Returns
`none` when no version component exists. -/
def splitVersionChars : List Char → Option (List Char × List Char)
  | [] => none
  | '-' :: c :: rest =>
    (match splitVersionChars (c :: rest) with
     | some (n, v) => some ('-' :: n, v)
     | none => if c.isDigit then some ([], c :: rest) else none)
  | c :: rest =>
    (match splitVersionChars rest with
     | some (n, v) => some (c :: n, v)
     | none => none)

/-- Split on every occurrence of a separator character (the semantics of
Python `str.split(sep)`). -/
def splitOnChar (c : Char) : List Char → List (List Char)
  | [] => [[]]
  | x :: rest =>
    if x = c then [] :: splitOnChar c rest
    else
      match splitOnChar c rest with
      | [] => [[x]]
      | y :: ys => (x :: y) :: ys

/-- Model of the external pkgcore atom constructor `atom_cls`.  `=cat/pkg-ver`
builds an exact-version atom (a missing version is a `MalformedAtom`, giving
`none`); `cat/pkg` builds an unversioned atom (a trailing version component is
a `MalformedAtom`). -/
def atom_cls (s : String) : Option Atom :=
  let parsed : Bool × List Char :=
    match s.toList with
    | '=' :: rest => (true, rest)
    | cs => (false, cs)
  match splitOnChar '/' parsed.2 with
  | [cat, pkg] =>
    if cat = [] then none
    else if parsed.1 then
      match splitVersionChars pkg with
      | some (n, v) => if n = [] then none else some ⟨String.mk cat, String.mk n, String.mk v⟩
      | none => none
    else
      if pkg = [] then none
      else match splitVersionChars pkg with
        | some _ => none
        | none => some ⟨String.mk cat, String.mk pkg, ""⟩
  | _ => none

/-- Embeds `GitCommit` (git.py lines 35-49): value-carrying commit record. -/
structure GitCommit where
  hash : String
  commit_date : String
  author : String
  committer : String
  message : List String
  deriving DecidableEq

/-- Embeds `GitPkgChange` (git.py lines 52-59).  The only keyword datum ever passed is
`old_atom`, so the `data` kwargs mapping is modelled as that optional field. -/
structure GitPkgChange where
  atom : Atom
  status : Char
  commit : GitCommit
  old_atom : Option Atom := none
  deriving DecidableEq

/-- The commit reference stored in a cache tuple: a bare hash string for
persisted data, or the full commit record plus the extra data mapping for
local-mode data (git.py lines 98-101). -/
inductive CommitInfo where
  | hash (h : String)
  | record (commit : GitCommit) (extra : Option Atom)
  deriving DecidableEq

/-- One tuple appended into the nested cache mapping by `update`. -/
structure CommitTuple where
  ver : String
  date : String
  info : CommitInfo
  deriving DecidableEq

/-- Lookup in an insertion-ordered association list (Python dict read). -/
def alGet [DecidableEq α] (k : α) (dflt : β) : List (α × β) → β
  | [] => dflt
  | (k2, v) :: rest => if k = k2 then v else alGet k dflt rest

/-- Python `dict.setdefault(k, dflt)` followed by an in-place modification of
the value: updates the value in place if the key exists, otherwise appends the
key with the modified default (insertion order preserved). -/
def alSetdefault [DecidableEq α] (k : α) (dflt : β) (f : β → β) : List (α × β) → List (α × β)
  | [] => [(k, f dflt)]
  | (k2, v) :: rest =>
    if k = k2 then (k2, f v) :: rest else (k2, v) :: alSetdefault k dflt f rest

/-- The nested `category → package → status → list of tuples` mapping. -/
abbrev StatusMap := List (Char × List CommitTuple)
abbrev PkgMap := List (String × StatusMap)
abbrev GitData := List (String × PkgMap)

instance : DecidableEq StatusMap := instDecidableEqList
instance : DecidableEq PkgMap := instDecidableEqList
instance : DecidableEq GitData := instDecidableEqList

/-- Embeds `data.setdefault(category, {}).setdefault(package, {}).setdefault(status,
[]).append(commit)` (git.py lines 102-103). -/
def insertData (a : Atom) (s : Char) (t : CommitTuple) (d : GitData) : GitData :=
  alSetdefault a.category []
    (alSetdefault a.package [] (alSetdefault s [] (· ++ [t]))) d

/-- Reading the nested mapping, with absent keys giving the empty list. -/
def lookupData (d : GitData) (c p : String) (s : Char) : List CommitTuple :=
  alGet s [] (alGet p [] (alGet c [] d))

/-- The tuple recorded for one surviving event (git.py lines 98-101). -/
def mkTuple (localMode : Bool) (pkg : GitPkgChange) : CommitTuple :=
  if localMode then
    ⟨pkg.atom.fullver, pkg.commit.commit_date, .record pkg.commit pkg.old_atom⟩
  else
    ⟨pkg.atom.fullver, pkg.commit.commit_date, .hash pkg.commit.hash⟩

/-- The `(atom, status)` deduplication key of `update` (git.py line 95). -/
def eventKey (e : GitPkgChange) : Atom × Char := (e.atom, e.status)

/-- The loop body of `ParsedGitRepo.update` (git.py lines 92-104) over an
already-parsed event stream, threading the `seen` set. -/
def updateGo (localMode : Bool) : List GitPkgChange → List (Atom × Char) → GitData → GitData
  | [], _, d => d
  | e :: rest, seen, d =>
    if eventKey e ∈ seen then updateGo localMode rest seen d
    else updateGo localMode rest (eventKey e :: seen)
      (insertData e.atom e.status (mkTuple localMode e) d)

/-- Embeds `ParsedGitRepo.update` restricted to its merge step: fold the parsed event
stream into the nested mapping with `(atom, status)` deduplication. -/
def updateEvents (localMode : Bool) (events : List GitPkgChange) (d : GitData) : GitData :=
  updateGo localMode events [] d

/-- Python `str.strip()` (whitespace trim on both ends). -/
def pyStrip (s : String) : String :=
  String.mk (((s.toList.dropWhile Char.isWhitespace).reverse.dropWhile Char.isWhitespace).reverse)

/-- The maximal `[^/]*` run at the head of the input. -/
def takeNonSlash (cs : List Char) : List Char := cs.takeWhile (· ≠ '/')

/-- The regex fragment `([^/]+)\.ebuild` followed by a continuation, with
greedy backtracking over the capture length (tried longest-first, the fuel
starting at the length of the maximal non-slash run). -/
def matchCapEbuild (cs : List Char) (k : List Char → Option α) : Nat → Option (List Char × α)
  | 0 => none
  | n + 1 =>
    let rest := cs.drop (n + 1)
    if rest.take 7 = ".ebuild".toList then
      match k (rest.drop 7) with
      | some a => some (cs.take (n + 1), a)
      | none => matchCapEbuild cs k n
    else matchCapEbuild cs k n

/-- The regex fragment `[^/]+/`: since `/` is excluded from the class, the
match is forced to end at the first slash. -/
def matchSeg (cs : List Char) : Option (List Char × List Char) :=
  let seg := takeNonSlash cs
  if seg = [] then none
  else match cs.drop seg.length with
    | '/' :: rest => some (seg, rest)
    | _ => none

/-- The `_ebuild_regex` fragment `([^/]+)/[^/]+/([^/]+)\.ebuild` (git.py line
81) with a continuation for whatever the surrounding pattern requires next. -/
def matchEbuildPath (cs : List Char) (k : List Char → Option α) :
    Option (String × String × α) := do
  let (seg1, r1) ← matchSeg cs
  let (_, r2) ← matchSeg r1
  let (cap, a) ← matchCapEbuild r2 k (takeNonSlash r2).length
  pure (String.mk seg1, String.mk cap, a)

/-- Result of matching `_git_log_regex` (git.py lines 82-83) against a line:
either an `A`/`D`/`M` group set or an `R` group set. -/
inductive GitLogMatch where
  | adm (status : Char) (category pkg : String)
  | rename (oldCategory oldPkg newCategory newPkg : String)
  deriving DecidableEq

/-- First alternative `^([ADM])\t<ebuild>` (not anchored at the end). -/
def matchADM (cs : List Char) : Option GitLogMatch :=
  match cs with
  | st :: '\t' :: rest =>
    if st = 'A' ∨ st = 'D' ∨ st = 'M' then
      match matchEbuildPath rest (fun _ => some ()) with
      | some (cat, pkg, _) => some (.adm st cat pkg)
      | none => none
    else none
  | _ => none

/-- Second alternative `(R)\d+\t<ebuild>\t<ebuild>$`.  The Python `$` also
accepts a single trailing newline. -/
def matchRename (cs : List Char) : Option GitLogMatch :=
  match cs with
  | 'R' :: rest =>
    let digits := rest.takeWhile Char.isDigit
    if digits = [] then none
    else
      match rest.drop digits.length with
      | '\t' :: r2 =>
        (match matchEbuildPath r2 (fun r3 =>
            match r3 with
            | '\t' :: r4 =>
              matchEbuildPath r4 (fun r5 =>
                if r5 = [] ∨ r5 = ['\n'] then some () else none)
            | _ => none) with
         | some (oc, op, (nc, np, _)) => some (.rename oc op nc np)
         | none => none)
      | _ => none
  | _ => none

/-- Embeds `_git_log_regex.match(line)`: the first alternative wins when both fit. -/
def gitLogRegexMatch (line : String) : Option GitLogMatch :=
  (matchADM line.toList).orElse (fun _ => matchRename line.toList)

/-- Classification of one stripped, non-empty file-change line (git.py lines
165-186).  The `try` block wraps both rename yields, so a `MalformedAtom` from
the first path drops the whole line, while one from the second path (local
mode) drops only the second event — the first was already yielded. -/
def parseFileChangeLine (localMode : Bool) (commit : GitCommit) (line : String) :
    List GitPkgChange :=
  match gitLogRegexMatch line with
  | none => []
  | some (.adm st cat pkg) =>
    (match atom_cls ("=" ++ cat ++ "/" ++ pkg) with
     | some a => [{ atom := a, status := st, commit := commit }]
     | none => [])
  | some (.rename oc op nc np) =>
    (match atom_cls ("=" ++ oc ++ "/" ++ op) with
     | none => []
     | some old_atom =>
       if localMode then
         match atom_cls ("=" ++ nc ++ "/" ++ np) with
         | some na =>
           [{ atom := old_atom, status := 'R', commit := commit },
            { atom := na, status := 'R', commit := commit, old_atom := some old_atom }]
         | none => [{ atom := old_atom, status := 'R', commit := commit }]
       else [{ atom := old_atom, status := 'R', commit := commit }])

/-- The end-of-message sentinel line (git.py line 118). -/
def endSentinel : String := "# END MESSAGE BODY"

/-- The begin-of-commit sentinel line (git.py line 112). -/
def beginSentinel : String := "# BEGIN COMMIT"

/-- The message accumulation loop (git.py lines 141-148): collect lines until
the end sentinel.  `none` models the unterminated case, in which the real code
never leaves the loop. -/
def splitAtSentinel : List String → Option (List String × List String)
  | [] => none
  | l :: rest =>
    if l = endSentinel then some ([], rest)
    else (fun p => (l :: p.1, p.2)) <$> splitAtSentinel rest

/-- The trailing-newline drop (git.py lines 144-146): `message.pop()` when the
last accumulated line is empty.  `message[-1]` on an empty accumulation raises
`IndexError`, modelled as `none`. -/
def finalizeMessage (msg : List String) : Option (List String) :=
  match msg.getLast? with
  | none => none
  | some lastLine => some (if lastLine = "" then msg.dropLast else msg)

/-- Message handling of one commit (git.py lines 140-148): accumulate lines up
to the end sentinel, then drop one trailing empty line if present.  Returns
the message and the unconsumed remainder of the stream. -/
def parse_message (lines : List String) : Option (List String × List String) :=
  match splitAtSentinel lines with
  | none => none
  | some (msg, rest) => (fun m => (m, rest)) <$> finalizeMessage msg

/-- The file-change section loop (git.py lines 159-162): consume raw lines
until the begin sentinel or end of stream.  Returns the consumed lines, the
remainder (the sentinel itself consumed), and whether a sentinel was seen. -/
def takeFileSection : List String → List String × List String × Bool
  | [] => ([], [], false)
  | l :: rest =>
    if l = beginSentinel then ([], rest, true)
    else
      let (fl, r, b) := takeFileSection rest
      (l :: fl, r, b)

/-- The four fixed metadata reads of one commit (git.py lines 135-138);
`readline` at end of stream returns the empty string in Python. -/
def readMeta4 (lines : List String) : String × String × String × String × List String :=
  match lines with
  | a :: b :: c :: d :: rest => (pyStrip a, pyStrip b, pyStrip c, pyStrip d, rest)
  | [a, b, c] => (pyStrip a, pyStrip b, pyStrip c, "", [])
  | [a, b] => (pyStrip a, pyStrip b, "", "", [])
  | [a] => (pyStrip a, "", "", "", [])
  | [] => ("", "", "", "", [])

/-- One item of the lazy sequence `parse_git_log` yields: a commit record
(when `pkgs` is off) or a package-change event (when `pkgs` is on). -/
inductive ParsedItem where
  | commit (c : GitCommit)
  | change (p : GitPkgChange)
  deriving DecidableEq

/-- The outer `while line:` loop of `parse_git_log` (git.py lines 134-186),
entered after a truthy line was read; fueled by the stream length (each
iteration consumes at least the metadata/message/sentinel lines, so the fuel
only runs out on streams on which the real loop would never terminate). -/
def parseCommitLoop (pkgs localMode : Bool) : Nat → List String → Option (List ParsedItem)
  | 0, _ => none
  | fuel + 1, lines =>
    let (hash, commit_date, author, committer, rest1) := readMeta4 lines
    match parse_message rest1 with
    | none => none
    | some (message, rest2) =>
      let commit : GitCommit := ⟨hash, commit_date, author, committer, message⟩
      let (fileLines, rest3, sawBegin) := takeFileSection rest2
      let changes : List ParsedItem :=
        if pkgs then
          fileLines.flatMap (fun raw =>
            let l := pyStrip raw
            if l = "" then []
            else (parseFileChangeLine localMode commit l).map ParsedItem.change)
        else [ParsedItem.commit commit]
      if sawBegin then
        match parseCommitLoop pkgs localMode fuel rest3 with
        | none => none
        | some more => some (changes ++ more)
      else some changes

/-- Embeds `ParsedGitRepo.parse_git_log` (git.py lines 106-186) over the decoded
output lines of the git log oracle.  An empty first line (including an empty
stream) yields nothing; `none` models a stream on which the real parser would
crash or loop forever (missing sentinels). -/
def ParsedGitRepo.parse_git_log (pkgs localMode : Bool) (lines : List String) :
    Option (List ParsedItem) :=
  match lines with
  | [] => some []
  | l :: rest =>
    if pyStrip l = "" then some []
    else parseCommitLoop pkgs localMode (rest.length + 1) rest

/-- The package-change event stream `update` iterates over
(`parse_git_log(commit_range, pkgs=True, local=local)`, git.py line 93); a
crashing stream contributes no events. -/
def parseGitLogPkgs (localMode : Bool) (lines : List String) : List GitPkgChange :=
  match ParsedGitRepo.parse_git_log true localMode lines with
  | none => []
  | some items =>
    items.filterMap (fun i =>
      match i with
      | .change p => some p
      | .commit _ => none)

/-- Embeds `ParsedGitRepo.update` (git.py lines 88-104), with the oracle's log output
for the commit range supplied as decoded lines, and `data=None` modelled by
passing `[]`. -/
def ParsedGitRepo.update (commitLog : List String) (d : GitData) (localMode : Bool) : GitData :=
  updateEvents localMode (parseGitLogPkgs localMode commitLog) d

/-- The current cache schema version (`caches.CacheData(type='git', ...,
version=4)`, git.py line 384). -/
def cacheVersion : Nat := 4

/-- Embeds `GitCache` (git.py lines 66-71): the persisted object, carrying the nested
data, the schema version inherited from `caches.DictCache`, and the head
commit hash the data was merged up to. -/
structure GitCache where
  data : GitData
  version : Nat
  commit : String
  deriving DecidableEq

/-- What loading the pickled cache file can observe: the file is absent
(`FileNotFoundError`), unreadable (any other deserialization failure), or
holds a cache object. -/
inductive DiskCache where
  | missing
  | corrupt
  | stored (c : GitCache)
  deriving DecidableEq

/-- Outcome of `GitAddon.update_cache` for one repo. -/
structure CacheUpdateResult where
  cache : GitCache
  staleRemoved : Bool
  wrote : Bool
  deriving DecidableEq

/-- The per-repo body of `GitAddon.update_cache` (git.py lines 452-508).
External effects are passed in: `disk` is what deserializing the cache file
yields, `commit` is the current `origin/HEAD` hash, `fullLog` is the oracle's
log output for the full-history range `origin/HEAD`, and `incrLog c` its
output for the incremental range `c..origin/HEAD`.  `staleRemoved` records
whether `os.remove(cache_file)` ran, `wrote` whether the cache was pushed back
to disk. -/
def GitAddon.update_cache_repo (force : Bool) (disk : DiskCache) (commit : String)
    (fullLog : List String) (incrLog : String → List String) : CacheUpdateResult :=
  let loaded : Option GitCache × Bool :=
    if force then (none, false)
    else
      match disk with
      | .missing => (none, false)
      | .corrupt => (none, true)
      | .stored c => if c.version ≠ cacheVersion then (none, true) else (some c, false)
  match loaded with
  | (none, removed) =>
    ⟨⟨ParsedGitRepo.update fullLog [] false, cacheVersion, commit⟩, removed, true⟩
  | (some c, removed) =>
    if commit ≠ c.commit then
      ⟨⟨ParsedGitRepo.update (incrLog c.commit) c.data false, cacheVersion, commit⟩,
        removed, true⟩
    else ⟨c, removed, false⟩

/-- Embeds `_GitCommitPkg` (git.py lines 189-202): the pseudo-package built from one
cache tuple, exposing category/package/version plus status, date and the
commit reference (with any extra data). -/
structure GitCommitPkg where
  category : String
  package : String
  status : Char
  version : String
  date : String
  info : CommitInfo
  deriving DecidableEq

/-- Embeds `GitChangedRepo._status_filter` (git.py line 209). -/
def GitChangedRepo.statusFilter : List Char := ['A', 'R', 'M', 'D']

/-- Embeds `GitModifiedRepo._status_filter` (git.py line 233). -/
def GitModifiedRepo.statusFilter : List Char := ['A', 'R', 'M']

/-- Embeds `GitAddedRepo._status_filter` (git.py line 239). -/
def GitAddedRepo.statusFilter : List Char := ['A', 'R']

/-- Embeds `GitRemovedRepo._status_filter` (git.py line 245). -/
def GitRemovedRepo.statusFilter : List Char := ['D']

/-- Embeds `GitChangedRepo._get_versions` (git.py lines 215-220): the package's
status entries restricted to the repo's status filter. -/
def GitChangedRepo.get_versions (filt : List Char) (d : GitData) (cat pkg : String) :
    List (Char × List CommitTuple) :=
  (alGet pkg [] (alGet cat [] d)).filter (fun e => filt.contains e.1)

/-- Embeds `GitChangedRepo._internal_gen_candidates` for a single category/package
(git.py lines 222-227): one pseudo-package per recorded tuple surviving the
status filter.  The external sorter only reorders the output, so it is left
out; no property below depends on the order. -/
def GitChangedRepo.gen_candidates (filt : List Char) (d : GitData) (cat pkg : String) :
    List GitCommitPkg :=
  (GitChangedRepo.get_versions filt d cat pkg).flatMap
    (fun e => e.2.map (fun t => ⟨cat, pkg, e.1, t.ver, t.date, t.info⟩))

/-- Modelled from the spec: all `(status, tuple)` pairs a cache entry records
for one version of one category/package (the spec's notion of the version's
recorded history, used to define "most recently recorded status"). -/
def recordedStatusesFor (d : GitData) (cat pkg ver : String) : List (Char × CommitTuple) :=
  (alGet pkg [] (alGet cat [] d)).flatMap
    (fun e => (e.2.filter (fun t => t.ver == ver)).map (fun t => (e.1, t)))

/-- Lexicographic strict comparison of character lists by code point. -/
def charListLt : List Char → List Char → Bool
  | [], [] => false
  | [], _ :: _ => true
  | _ :: _, [] => false
  | a :: as, b :: bs =>
    if a.toNat < b.toNat then true
    else if b.toNat < a.toNat then false
    else charListLt as bs

/-- Lexicographic strict comparison of strings by code point. -/
def dateLt (s1 s2 : String) : Bool := charListLt s1.toList s2.toList

/-- Modelled from the spec: the most recently recorded status for a version —
the status of the recorded tuple with the maximal commit date (dates are
ISO-short strings, so lexicographic comparison is chronological). -/
def mostRecentStatusFor (d : GitData) (cat pkg ver : String) : Option Char :=
  match recordedStatusesFor d cat pkg ver with
  | [] => none
  | x :: xs =>
    some (xs.foldl (fun best y => if dateLt best.2.date y.2.date then y else best) x).1

/-- The subprocess outcomes `GitStash` can observe: the `git ls-files` exit
code and output, and whether `git stash push` / `git stash pop` succeed. -/
structure StashEnv where
  lsReturncode : Nat
  lsStdout : String
  pushOk : Bool
  pushErr : String
  popOk : Bool
  popErr : String
  deriving DecidableEq

/-- A fatal, user-visible `parser.error` (argparse raises `SystemExit`). -/
inductive GuardError where
  | parserError (msg : String)
  deriving DecidableEq

/-- Embeds `GitStash.__enter__` (git.py lines 332-351): returns the `_stashed` flag,
or the fatal error raised when `git stash push` fails.  A non-zero `ls-files`
exit code or empty output returns early without stashing. -/
def GitStash.enter (env : StashEnv) : Except GuardError Bool :=
  if env.lsReturncode ≠ 0 ∨ env.lsStdout = "" then .ok false
  else if env.pushOk then .ok true
  else .error (.parserError ("git failed stashing files: " ++ env.pushErr))

/-- Embeds `GitStash.__exit__` (git.py lines 353-363): runs `git stash pop` exactly
when `_stashed` is set.  The first component records whether the pop was
invoked. -/
def GitStash.leave (env : StashEnv) (stashed : Bool) : Bool × Except GuardError Unit :=
  if stashed then
    (true,
      if env.popOk then .ok ()
      else .error (.parserError ("git failed applying stash: " ++ env.popErr)))
  else (false, .ok ())

deriving instance DecidableEq for Except

/-- Trace of one `with GitStash(...)` execution. -/
structure StashRun (α : Type) where
  stashed : Bool
  exitRan : Bool
  restoreInvoked : Bool
  outcome : Except GuardError α
  deriving DecidableEq

/-- Python's `with`-statement protocol around `GitStash`: `__enter__` first (a
failure there aborts everything, `__exit__` never registered); otherwise the
body runs, `__exit__` runs on every exit path, and an error raised by
`__exit__` replaces the body's outcome, which otherwise propagates unchanged
(exceptional or not — `__exit__` returns `None`, so exceptions are never
suppressed). -/
def runScanWithStash (env : StashEnv) (body : Except GuardError α) : StashRun α :=
  match GitStash.enter env with
  | .error e => ⟨false, false, false, .error e⟩
  | .ok stashed =>
    let (invoked, leaveRes) := GitStash.leave env stashed
    { stashed := stashed
      exitRan := true
      restoreInvoked := invoked
      outcome :=
        match leaveRes with
        | .error e => .error e
        | .ok _ => body }

/-- What `subprocess.run(git_diff_cmd + targets, ...)` can produce for
`_ScanCommits` (git.py lines 280-289). -/
inductive DiffResult where
  | notFound
  | failed (stderr : String)
  | ok (stdout : String)
  deriving DecidableEq

/-- A scan restriction produced by `_ScanCommits` (git.py lines 303-310):
an OR over changed package atoms at package scope, or an eclass-name
membership predicate at eclass scope. -/
inductive Restriction where
  | pkgs (atoms : List Atom)
  | eclasses (names : List String)
  deriving DecidableEq

/-- How `_ScanCommits.__call__` terminates: a fatal `parser.error`, a clean
`parser.exit` (success, nothing to scan), or a normal return with the computed
restrictions attached to the namespace. -/
inductive ScanOutcome where
  | argError (msg : String)
  | exitClean
  | proceed (restrictions : List Restriction)
  deriving DecidableEq

/-- Embeds `_ScanCommits._pkg_atoms` (git.py lines 254-261): atoms built from the
first two path segments, invalid ones silently dropped. -/
def pkg_atoms (paths : List String) : List Atom :=
  paths.filterMap (fun x =>
    match x.splitOn "/" with
    | a :: b :: _ => atom_cls (a ++ "/" ++ b)
    | _ => atom_cls x)

/-- Python `str.splitlines()` restricted to newline separators: no trailing
empty element for a trailing newline. -/
def pySplitlines (s : String) : List String :=
  if s = "" then []
  else
    let parts := s.splitOn "\n"
    if parts.getLast? = some "" then parts.dropLast else parts

/-- The regex `^eclass/(?P<eclass>\S+)\.eclass$` (git.py line 299): the
capture is everything between the directory prefix and the last `.eclass`
suffix, nonempty and whitespace-free. -/
def eclassRegexMatch (x : String) : Option String :=
  if x.startsWith "eclass/" then
    let body := x.drop 7
    if body.endsWith ".eclass" then
      let name := body.dropRight 7
      if name ≠ "" ∧ name.toList.all (fun c => ¬ c.isWhitespace) then some name else none
    else none
  else none

/-- Insertion sort by a boolean order: model of Python `sorted` (the external
pkgcore atom ordering and the string ordering are passed in as `le`). -/
def insertSorted (le : α → α → Bool) (x : α) : List α → List α
  | [] => [x]
  | y :: ys => if le x y then x :: y :: ys else y :: insertSorted le x ys

def sortBy (le : α → α → Bool) : List α → List α
  | [] => []
  | x :: xs => insertSorted le x (sortBy le xs)

/-- Model of the external pkgcore atom ordering: lexicographic on the triple
of fields. -/
def atomLe (a b : Atom) : Bool :=
  match compare a.category b.category with
  | .lt => true
  | .gt => false
  | .eq =>
    match compare a.package b.package with
    | .lt => true
    | .gt => false
    | .eq => a.fullver ≤ b.fullver

def stringLe (a b : String) : Bool := a ≤ b

/-- Embeds `_ScanCommits.__call__` (git.py lines 263-317).  `targets` is
`namespace.targets`; `diff` is the result of the `git diff --cached <ref>
--name-only` oracle run.  The forced-check and context-manager bookkeeping on
the namespace carries no decision logic and is not modelled; the returned
outcome captures every control-flow exit of the method. -/
def scan_commits_call (targets : List String) (diff : DiffResult) : ScanOutcome :=
  match targets with
  | _ :: _ => .argError "--commits is mutually exclusive with targets"
  | [] =>
    match diff with
    | .notFound => .argError "git not available to determine targets for --commits"
    | .failed err => .argError ("failed running git: " ++ err)
    | .ok stdout =>
      if stdout = "" then .exitClean
      else
        let ls := pySplitlines stdout
        let pkgLines := ls.filter (fun x => ¬ x.startsWith "eclass/")
        let eclassLines := ls.filter (fun x => x.startsWith "eclass/")
        let pkgs := sortBy atomLe (pkg_atoms pkgLines)
        let eclasses := sortBy stringLe (eclassLines.filterMap eclassRegexMatch)
        let restrictions : List Restriction :=
          (if pkgs ≠ [] then [.pkgs pkgs] else []) ++
          (if eclasses ≠ [] then [.eclasses eclasses] else [])
        if restrictions = [] then .exitClean
        else .proceed restrictions

/-! ### Characterization of the `update` merge -/

/-- The events surviving `update`'s `(atom, status)` deduplication, given the
keys already seen. -/
def dedupEvents (seen : List (Atom × Char)) : List GitPkgChange → List GitPkgChange
  | [] => []
  | e :: rest =>
    if eventKey e ∈ seen then dedupEvents seen rest
    else e :: dedupEvents (eventKey e :: seen) rest

/-- The `seen` set after processing a batch of events. -/
def seenAfter (seen : List (Atom × Char)) : List GitPkgChange → List (Atom × Char)
  | [] => seen
  | e :: rest =>
    if eventKey e ∈ seen then seenAfter seen rest
    else seenAfter (eventKey e :: seen) rest

/-- Whether an event lands in the `(category, package, status)` cell. -/
def eventAt (c p : String) (s : Char) (e : GitPkgChange) : Bool :=
  decide (c = e.atom.category ∧ p = e.atom.package ∧ s = e.status)

theorem alGet_alSetdefault [DecidableEq α] (k k2 : α) (dflt : β) (f : β → β)
    (l : List (α × β)) :
    alGet k dflt (alSetdefault k2 dflt f l) =
      if k = k2 then f (alGet k2 dflt l) else alGet k dflt l := by
  induction l with
  | nil => by_cases h : k = k2 <;> simp [alGet, alSetdefault, h]
  | cons hd tl ih =>
    obtain ⟨k3, v⟩ := hd
    by_cases h2 : k2 = k3
    · subst h2
      by_cases h : k = k2 <;> simp [alGet, alSetdefault, h]
    · by_cases h : k = k3
      · subst h
        have hk2 : ¬ k = k2 := fun hh => h2 (hh ▸ rfl)
        simp [alGet, alSetdefault, h2, hk2]
      · simp [alGet, alSetdefault, h2, h, ih]

theorem lookupData_insertData (a : Atom) (s : Char) (t : CommitTuple) (d : GitData)
    (c p : String) (st : Char) :
    lookupData (insertData a s t d) c p st =
      if c = a.category ∧ p = a.package ∧ st = s then lookupData d c p st ++ [t]
      else lookupData d c p st := by
  unfold lookupData insertData
  rw [alGet_alSetdefault]
  by_cases h1 : c = a.category
  · rw [if_pos h1, alGet_alSetdefault]
    by_cases h2 : p = a.package
    · rw [if_pos h2, alGet_alSetdefault]
      by_cases h3 : st = s
      · simp [h1, h2, h3]
      · simp [h1, h2, h3]
    · simp [h1, h2]
  · simp [h1]

theorem updateGo_lookup (localMode : Bool) (es : List GitPkgChange)
    (seen : List (Atom × Char)) (d : GitData) (c p : String) (s : Char) :
    lookupData (updateGo localMode es seen d) c p s =
      lookupData d c p s ++
        ((dedupEvents seen es).filter (eventAt c p s)).map (mkTuple localMode) := by
  induction es generalizing seen d with
  | nil => simp [updateGo, dedupEvents]
  | cons e rest ih =>
    by_cases hm : eventKey e ∈ seen
    · simp [updateGo, dedupEvents, hm, ih]
    · simp only [updateGo, dedupEvents, if_neg hm]
      rw [ih, lookupData_insertData]
      by_cases ha : c = e.atom.category ∧ p = e.atom.package ∧ s = e.status
      · rw [if_pos ha, List.filter_cons_of_pos (by simp [eventAt, ha])]
        simp
      · rw [if_neg ha, List.filter_cons_of_neg (by simp [eventAt, ha])]

/-- The cell contents of `update`'s result: the existing entries followed by
one tuple per surviving event landing in that cell, in stream order. -/
theorem update_lookup (commitLog : List String) (d : GitData) (localMode : Bool)
    (c p : String) (s : Char) :
    lookupData (ParsedGitRepo.update commitLog d localMode) c p s =
      lookupData d c p s ++
        ((dedupEvents [] (parseGitLogPkgs localMode commitLog)).filter
          (eventAt c p s)).map (mkTuple localMode) :=
  updateGo_lookup localMode (parseGitLogPkgs localMode commitLog) [] d c p s

theorem dedupEvents_append (seen : List (Atom × Char)) (xs ys : List GitPkgChange) :
    dedupEvents seen (xs ++ ys) =
      dedupEvents seen xs ++ dedupEvents (seenAfter seen xs) ys := by
  induction xs generalizing seen with
  | nil => simp [dedupEvents, seenAfter]
  | cons e rest ih =>
    by_cases hm : eventKey e ∈ seen <;> simp [dedupEvents, seenAfter, hm, ih]

theorem seenAfter_mem (seen : List (Atom × Char)) (xs : List GitPkgChange)
    (k : Atom × Char) (h : k ∈ seenAfter seen xs) : k ∈ seen ∨ k ∈ xs.map eventKey := by
  induction xs generalizing seen with
  | nil => exact Or.inl (by simpa [seenAfter] using h)
  | cons e rest ih =>
    simp only [seenAfter] at h
    by_cases hm : eventKey e ∈ seen
    · rw [if_pos hm] at h
      rcases ih seen h with h1 | h1
      · exact Or.inl h1
      · exact Or.inr (by simp [h1])
    · rw [if_neg hm] at h
      rcases ih (eventKey e :: seen) h with h1 | h1
      · rcases List.mem_cons.mp h1 with h2 | h2
        · exact Or.inr (by simp [h2])
        · exact Or.inl h2
      · exact Or.inr (by simp [h1])

theorem dedupEvents_congr (s1 s2 : List (Atom × Char)) (xs : List GitPkgChange)
    (h : ∀ e ∈ xs, (eventKey e ∈ s1 ↔ eventKey e ∈ s2)) :
    dedupEvents s1 xs = dedupEvents s2 xs := by
  induction xs generalizing s1 s2 with
  | nil => simp [dedupEvents]
  | cons e rest ih =>
    have he := h e (List.mem_cons_self e rest)
    by_cases hm : eventKey e ∈ s1
    · have hm2 : eventKey e ∈ s2 := he.mp hm
      simp only [dedupEvents, if_pos hm, if_pos hm2]
      exact ih s1 s2 (fun x hx => h x (List.mem_cons_of_mem e hx))
    · have hm2 : eventKey e ∉ s2 := fun hh => hm (he.mpr hh)
      simp only [dedupEvents, if_neg hm, if_neg hm2]
      refine congrArg _ (ih _ _ (fun x hx => ?_))
      constructor
      · intro hx1
        rcases List.mem_cons.mp hx1 with h2 | h2
        · exact List.mem_cons.mpr (Or.inl h2)
        · exact List.mem_cons.mpr (Or.inr ((h x (List.mem_cons_of_mem e hx)).mp h2))
      · intro hx1
        rcases List.mem_cons.mp hx1 with h2 | h2
        · exact List.mem_cons.mpr (Or.inl h2)
        · exact List.mem_cons.mpr (Or.inr ((h x (List.mem_cons_of_mem e hx)).mpr h2))

/-- Whether an event carries exactly the deduplication key `(a, s)`. -/
def keyMatches (a : Atom) (s : Char) (e : GitPkgChange) : Bool :=
  decide (e.atom = a ∧ e.status = s)

theorem mkTuple_ver (localMode : Bool) (e : GitPkgChange) :
    (mkTuple localMode e).ver = e.atom.fullver := by
  cases localMode <;> rfl

theorem dedupEvents_filter_key (a : Atom) (s : Char) (es : List GitPkgChange)
    (seen : List (Atom × Char)) :
    (dedupEvents seen es).filter (keyMatches a s) =
      if (a, s) ∈ seen then [] else (es.filter (keyMatches a s)).take 1 := by
  induction es generalizing seen with
  | nil => simp [dedupEvents]
  | cons e rest ih =>
    by_cases hk : keyMatches a s e = true
    · have hk2 : e.atom = a ∧ e.status = s := by simpa [keyMatches] using hk
      have hke : eventKey e = (a, s) := by simp [eventKey, hk2.1, hk2.2]
      by_cases hm : eventKey e ∈ seen
      · have hm2 : (a, s) ∈ seen := hke ▸ hm
        simp only [dedupEvents, if_pos hm, ih, if_pos hm2]
      · have hm2 : (a, s) ∉ seen := fun hh => hm (hke ▸ hh)
        rw [dedupEvents, if_neg hm, List.filter_cons_of_pos hk, ih,
          List.filter_cons_of_pos hk, if_pos (by rw [hke]; exact List.mem_cons_self _ _),
          if_neg hm2]
        simp
    · have hk3 : ¬ (e.atom = a ∧ e.status = s) := by simpa [keyMatches] using hk
      have hke : eventKey e ≠ (a, s) := by
        intro hh
        exact hk3 ⟨congrArg Prod.fst hh, congrArg Prod.snd hh⟩
      by_cases hm : eventKey e ∈ seen
      · rw [dedupEvents, if_pos hm, ih, List.filter_cons_of_neg (by simpa using hk)]
      · rw [dedupEvents, if_neg hm, List.filter_cons_of_neg (by simpa using hk), ih,
          List.filter_cons_of_neg (by simpa using hk)]
        by_cases hm2 : (a, s) ∈ seen
        · rw [if_pos (List.mem_cons_of_mem _ hm2), if_pos hm2]
        · rw [if_neg ?_, if_neg hm2]
          intro hh
          rcases List.mem_cons.mp hh with h2 | h2
          · exact hke h2.symm
          · exact hm2 h2

theorem lookupData_nil (c p : String) (s : Char) : lookupData [] c p s = [] := rfl

/-! ### Concrete log fixtures (decoded oracle output) -/

/-- A one-commit log whose commit modifies `cat/pkg-1`. -/
def logA : List String :=
  [beginSentinel, "aaa1", "2020-01-01", "A <a@a>", "C <c@c>", "commit 1", "",
   endSentinel, "M\tcat/pkg/pkg-1.ebuild"]

/-- A one-commit log whose commit modifies `cat/pkg-2`. -/
def logB : List String :=
  [beginSentinel, "bbb1", "2020-01-02", "A <a@a>", "C <c@c>", "commit 2", "",
   endSentinel, "M\tcat/pkg/pkg-2.ebuild"]

/-- The direct log for the combined range: newest commit first, so the `logB`
commit precedes the `logA` commit. -/
def logAC : List String := logB ++ logA

/-- A two-commit log in which both commits modify `cat/pkg-1`, so the
`(atom, status)` pair occurs twice in the event stream. -/
def logDup : List String :=
  [beginSentinel, "ddd1", "2020-03-02", "A <a@a>", "C <c@c>", "newer", "",
   endSentinel, "M\tcat/pkg/pkg-1.ebuild",
   beginSentinel, "ddd2", "2020-03-01", "A <a@a>", "C <c@c>", "older", "",
   endSentinel, "M\tcat/pkg/pkg-1.ebuild"]

/-! ### C4 -/

/-- C4: `update` only appends — the result's cell for every
`(category, package, status)` is the existing data's cell followed by some
(possibly empty) tail of new tuples, so every entry of `existingData` is still
present in the returned mapping. -/
theorem update_monotone (commitLog : List String) (localMode : Bool) (d : GitData)
    (c p : String) (s : Char) :
    (∃ tail, lookupData (ParsedGitRepo.update commitLog d localMode) c p s =
        lookupData d c p s ++ tail) ∧
      ∀ t ∈ lookupData d c p s,
        t ∈ lookupData (ParsedGitRepo.update commitLog d localMode) c p s := by
  constructor
  · exact ⟨_, update_lookup commitLog d localMode c p s⟩
  · intro t ht
    rw [update_lookup]
    exact List.mem_append_left _ ht

/-! ### C3 -/

/-- C3: within one `update` call, an `(atom, status)` pair occurring more than
once in the parsed event stream records exactly one tuple in the resulting
mapping — the tuple built from the stream's first occurrence of the pair. -/
theorem update_dedup_first (commitLog : List String) (localMode : Bool) (a : Atom) (s : Char)
    (h : 2 ≤ ((parseGitLogPkgs localMode commitLog).filter (keyMatches a s)).length) :
    ∃ e0, ((parseGitLogPkgs localMode commitLog).filter (keyMatches a s)).head? = some e0 ∧
      (lookupData (ParsedGitRepo.update commitLog [] localMode) a.category a.package s).filter
          (fun t => t.ver == a.fullver) = [mkTuple localMode e0] := by
  obtain ⟨e0, tl, hft⟩ : ∃ e0 tl,
      (parseGitLogPkgs localMode commitLog).filter (keyMatches a s) = e0 :: tl := by
    rcases hfe : (parseGitLogPkgs localMode commitLog).filter (keyMatches a s) with _ | ⟨e0, tl⟩
    · rw [hfe] at h; simp at h
    · exact ⟨e0, tl, rfl⟩
  refine ⟨e0, by rw [hft]; rfl, ?_⟩
  rw [update_lookup, lookupData_nil, List.nil_append, List.filter_map, List.filter_filter]
  have hpt : ∀ e : GitPkgChange,
      (((fun t => t.ver == a.fullver) ∘ mkTuple localMode) e &&
          eventAt a.category a.package s e) = keyMatches a s e := by
    intro e
    obtain ⟨⟨ec, ep, ev⟩, est, ecm, eo⟩ := e
    obtain ⟨ac, ap, av⟩ := a
    rw [Bool.eq_iff_iff]
    simp only [Function.comp_apply, mkTuple_ver, eventAt, keyMatches,
      Bool.and_eq_true, beq_iff_eq, decide_eq_true_eq, Atom.mk.injEq]
    constructor
    · rintro ⟨hv, hc, hp, hs⟩
      exact ⟨⟨hc.symm, hp.symm, hv⟩, hs.symm⟩
    · rintro ⟨⟨hc, hp, hv⟩, hs⟩
      exact ⟨hv, hc.symm, hp.symm, hs.symm⟩
  rw [List.filter_congr (fun e _ => hpt e), dedupEvents_filter_key,
    if_neg (List.not_mem_nil (a, s)), hft]
  rfl

/-- C3 witness: in `logDup` the pair `(=cat/pkg-1, M)` occurs twice, and the
resulting mapping records exactly the tuple of the first (newest) commit. -/
theorem update_dedup_first_witness :
    2 ≤ ((parseGitLogPkgs false logDup).filter (keyMatches ⟨"cat", "pkg", "1"⟩ 'M')).length ∧
      ∃ e0,
        ((parseGitLogPkgs false logDup).filter (keyMatches ⟨"cat", "pkg", "1"⟩ 'M')).head? =
          some e0 ∧
        (lookupData (ParsedGitRepo.update logDup [] false) "cat" "pkg" 'M').filter
            (fun t => t.ver == "1") = [mkTuple false e0] :=
  ⟨by decide, update_dedup_first logDup false ⟨"cat", "pkg", "1"⟩ 'M' (by decide)⟩

/-- C4 witness: concrete instantiation of `update_monotone` — updating on top
of existing data keeps every existing entry. -/
theorem update_monotone_witness :
    (∃ tail,
        lookupData (ParsedGitRepo.update logB (ParsedGitRepo.update logA [] false) false)
            "cat" "pkg" 'M' =
          lookupData (ParsedGitRepo.update logA [] false) "cat" "pkg" 'M' ++ tail) ∧
      ∀ t ∈ lookupData (ParsedGitRepo.update logA [] false) "cat" "pkg" 'M',
        t ∈ lookupData (ParsedGitRepo.update logB (ParsedGitRepo.update logA [] false) false)
            "cat" "pkg" 'M' :=
  update_monotone logB false (ParsedGitRepo.update logA [] false) "cat" "pkg" 'M'

/-! ### C2 -/

/-- C2 (amended): for two ranges whose event streams share no `(atom, status)`
pair, with the direct range's stream being their concatenation (newest commits
first, as git log emits on a linear history), the direct merge and the
incremental merge agree up to ordering inside each per-status list: every
`(category, package, status)` cell of the one is a permutation of the same
cell of the other (they hold the same entries, but not necessarily in the same
list order). -/
theorem update_merge_perm (lAB lBC lAC : List String)
    (hcat : parseGitLogPkgs false lAC =
      parseGitLogPkgs false lBC ++ parseGitLogPkgs false lAB)
    (hdisj : ∀ k ∈ (parseGitLogPkgs false lAB).map eventKey,
      k ∉ (parseGitLogPkgs false lBC).map eventKey)
    (c p : String) (s : Char) :
    (lookupData (ParsedGitRepo.update lAC [] false) c p s).Perm
      (lookupData (ParsedGitRepo.update lBC (ParsedGitRepo.update lAB [] false) false)
        c p s) := by
  simp only [update_lookup, lookupData_nil, List.nil_append, hcat]
  rw [dedupEvents_append]
  have hcong : dedupEvents (seenAfter [] (parseGitLogPkgs false lBC))
      (parseGitLogPkgs false lAB) = dedupEvents [] (parseGitLogPkgs false lAB) := by
    apply dedupEvents_congr
    intro e he
    constructor
    · intro hmem
      rcases seenAfter_mem _ _ _ hmem with h1 | h1
      · exact absurd h1 (List.not_mem_nil _)
      · exact absurd h1 (hdisj _ (List.mem_map_of_mem eventKey he))
    · intro hmem
      exact absurd hmem (List.not_mem_nil _)
  rw [hcong, List.filter_append, List.map_append]
  exact List.perm_append_comm

/-- C2 counterexample: with the concrete disjoint ranges `logA` and `logB`
(one commit each, touching two different versions of the same package), the
direct merge of the combined log and the incremental merge produce different
nested mappings — the `(cat, pkg, M)` list holds the same two tuples in
opposite orders, so the results are not equal as claimed. -/
theorem update_merge_order_cex :
    (parseGitLogPkgs false logAC =
        parseGitLogPkgs false logB ++ parseGitLogPkgs false logA) ∧
      (∀ k ∈ (parseGitLogPkgs false logA).map eventKey,
        k ∉ (parseGitLogPkgs false logB).map eventKey) ∧
      lookupData (ParsedGitRepo.update logAC [] false) "cat" "pkg" 'M' ≠
        lookupData (ParsedGitRepo.update logB (ParsedGitRepo.update logA [] false) false)
          "cat" "pkg" 'M' :=
  ⟨by decide, by decide, by decide⟩

/-- C2 witness: concrete instantiation of `update_merge_perm` on the same
disjoint ranges. -/
theorem update_merge_perm_witness :
    (lookupData (ParsedGitRepo.update logAC [] false) "cat" "pkg" 'M').Perm
      (lookupData (ParsedGitRepo.update logB (ParsedGitRepo.update logA [] false) false)
        "cat" "pkg" 'M') :=
  update_merge_perm logA logB logAC (by decide) (by decide) "cat" "pkg" 'M'

/-! ### C7 -/

theorem splitAtSentinel_append (pre post : List String) (h : endSentinel ∉ pre) :
    splitAtSentinel (pre ++ endSentinel :: post) = some (pre, post) := by
  induction pre with
  | nil => simp [splitAtSentinel]
  | cons l rest ih =>
    have hl : l ≠ endSentinel := fun hh => h (hh ▸ List.mem_cons_self l rest)
    rw [List.cons_append, splitAtSentinel, if_neg hl,
      ih (fun hh => h (List.mem_cons_of_mem l hh))]
    rfl

/-- C7: on a well-formed stream, the message parser accumulates exactly the
lines preceding the end sentinel, and the resulting message is those lines
with one trailing empty line removed when the last accumulated line is empty
and unchanged otherwise; the remainder of the stream continues right after
the sentinel. -/
theorem message_accumulation (pre post : List String)
    (h1 : pre ≠ []) (h2 : endSentinel ∉ pre) :
    parse_message (pre ++ endSentinel :: post) =
      some ((if pre.getLast? = some "" then pre.dropLast else pre), post) := by
  obtain ⟨lastLine, hl⟩ : ∃ x, pre.getLast? = some x := by
    cases hx : pre.getLast? with
    | none => exact absurd (List.getLast?_eq_none_iff.mp hx) h1
    | some x => exact ⟨x, rfl⟩
  simp only [parse_message, splitAtSentinel_append pre post h2, finalizeMessage, hl]
  by_cases hLE : lastLine = "" <;> simp [hLE]

/-- C7 witness: a two-line message whose trailing blank line is dropped. -/
theorem message_accumulation_witness :
    (["subject", ""] ≠ ([] : List String)) ∧ endSentinel ∉ ["subject", ""] ∧
      parse_message (["subject", ""] ++ endSentinel :: ["x"]) =
        some ((if ["subject", ""].getLast? = some "" then (["subject", ""]).dropLast
               else ["subject", ""]), ["x"]) :=
  ⟨by decide, by decide, message_accumulation ["subject", ""] ["x"] (by decide) (by decide)⟩

/-! ### C5 -/

/-- C5: when the stored cache's schema version differs from the current one
(and no forced rebuild was requested), `update_cache` deletes the stale file,
treats the cache as absent, and rebuilds it solely from the full-history
update on empty data — the result is the same whatever the stale cache's data
contained, so no stale entry is carried over. -/
theorem schema_mismatch_rebuild (c : GitCache) (commit : String)
    (fullLog : List String) (incrLog : String → List String)
    (h : c.version ≠ cacheVersion) :
    GitAddon.update_cache_repo false (.stored c) commit fullLog incrLog =
      ⟨⟨ParsedGitRepo.update fullLog [] false, cacheVersion, commit⟩, true, true⟩ := by
  simp [GitAddon.update_cache_repo, h]

/-- C5 witness: a version-3 cache holding an entry is discarded; the rebuilt
cache comes from the full-history log alone (and, the full log lacking that
entry, the stale entry is gone). -/
theorem schema_mismatch_rebuild_witness :
    (GitCache.mk [("old", [("entry", [('D', [⟨"9", "2019-01-01", .hash "zzz"⟩])])])] 3
        "zzz").version ≠ cacheVersion ∧
      GitAddon.update_cache_repo false
          (.stored (GitCache.mk
            [("old", [("entry", [('D', [⟨"9", "2019-01-01", .hash "zzz"⟩])])])] 3 "zzz"))
          "new" logA (fun _ => []) =
        ⟨⟨ParsedGitRepo.update logA [] false, cacheVersion, "new"⟩, true, true⟩ :=
  ⟨by decide,
    schema_mismatch_rebuild
      (GitCache.mk [("old", [("entry", [('D', [⟨"9", "2019-01-01", .hash "zzz"⟩])])])] 3 "zzz")
      "new" logA (fun _ => []) (by decide)⟩

/-! ### C1 -/

/-- C1 (amended): for a file-change line matching the rename shape (first path
old, second path new, per git's name-status format) whose two paths both yield
valid atoms, the classifier always emits the event for the *old* atom; when
local mode is requested it additionally emits a second event for the *new*
atom whose extra `oldAtom` field points at the old atom; when local mode is
not requested exactly one event is emitted per rename line. -/
theorem rename_classification (commit : GitCommit) (line : String)
    (oc op nc np : String) (aOld aNew : Atom)
    (hm : gitLogRegexMatch line = some (.rename oc op nc np))
    (hOld : atom_cls ("=" ++ oc ++ "/" ++ op) = some aOld)
    (hNew : atom_cls ("=" ++ nc ++ "/" ++ np) = some aNew) :
    parseFileChangeLine false commit line =
        [{ atom := aOld, status := 'R', commit := commit }] ∧
      parseFileChangeLine true commit line =
        [{ atom := aOld, status := 'R', commit := commit },
         { atom := aNew, status := 'R', commit := commit, old_atom := some aOld }] := by
  constructor <;> simp [parseFileChangeLine, hm, hOld, hNew]

/-- C1 counterexample: on a concrete rename line (old path `cat/old-1`, new
path `cat/new-1`), the single event emitted without local mode carries the old
atom — not the new atom as the claim states. -/
theorem rename_classification_cex :
    atom_cls "=cat/new-1" = some ⟨"cat", "new", "1"⟩ ∧
      (parseFileChangeLine false ⟨"h", "d", "a", "c", ["m"]⟩
          "R100\tcat/old/old-1.ebuild\tcat/new/new-1.ebuild").map (fun e => e.atom) =
        [⟨"cat", "old", "1"⟩] ∧
      (⟨"cat", "old", "1"⟩ : Atom) ≠ ⟨"cat", "new", "1"⟩ :=
  ⟨by decide, by decide, by decide⟩

/-- C1 witness: concrete instantiation of `rename_classification`. -/
theorem rename_classification_witness :
    gitLogRegexMatch "R100\tcat/old/old-1.ebuild\tcat/new/new-1.ebuild" =
        some (.rename "cat" "old-1" "cat" "new-1") ∧
      (parseFileChangeLine false ⟨"h", "d", "a", "c", ["m"]⟩
          "R100\tcat/old/old-1.ebuild\tcat/new/new-1.ebuild" =
        [{ atom := ⟨"cat", "old", "1"⟩, status := 'R', commit := ⟨"h", "d", "a", "c", ["m"]⟩ }] ∧
      parseFileChangeLine true ⟨"h", "d", "a", "c", ["m"]⟩
          "R100\tcat/old/old-1.ebuild\tcat/new/new-1.ebuild" =
        [{ atom := ⟨"cat", "old", "1"⟩, status := 'R', commit := ⟨"h", "d", "a", "c", ["m"]⟩ },
         { atom := ⟨"cat", "new", "1"⟩, status := 'R', commit := ⟨"h", "d", "a", "c", ["m"]⟩,
           old_atom := some ⟨"cat", "old", "1"⟩ }]) :=
  ⟨by decide,
    rename_classification ⟨"h", "d", "a", "c", ["m"]⟩
      "R100\tcat/old/old-1.ebuild\tcat/new/new-1.ebuild"
      "cat" "old-1" "cat" "new-1" ⟨"cat", "old", "1"⟩ ⟨"cat", "new", "1"⟩
      (by decide) (by decide) (by decide)⟩

/-! ### C6 -/

theorem alGet_of_filter_fst_nil (sm : StatusMap) (s : Char)
    (h : sm.filter (fun e => e.1 == s) = []) : alGet s [] sm = [] := by
  induction sm with
  | nil => rfl
  | cons e rest ih =>
    obtain ⟨k2, v⟩ := e
    by_cases he : k2 = s
    · rw [List.filter_cons_of_pos (by simp [he])] at h
      exact absurd h (List.cons_ne_nil _ _)
    · rw [List.filter_cons_of_neg (by simp [he])] at h
      rw [alGet, if_neg (fun hh => he hh.symm)]
      exact ih h

theorem filter_fst_unique (sm : StatusMap) (s : Char)
    (hnd : (sm.map Prod.fst).Nodup) :
    sm.filter (fun e => e.1 == s) = [] ∨
      sm.filter (fun e => e.1 == s) = [(s, alGet s [] sm)] := by
  induction sm with
  | nil => exact Or.inl rfl
  | cons e rest ih =>
    obtain ⟨k2, v⟩ := e
    simp only [List.map_cons, List.nodup_cons] at hnd
    by_cases he : k2 = s
    · subst he
      refine Or.inr ?_
      rw [List.filter_cons_of_pos (by simp), alGet, if_pos rfl]
      have hrest : rest.filter (fun e => e.1 == k2) = [] := by
        rw [List.filter_eq_nil_iff]
        intro x hx
        simp only [beq_iff_eq]
        intro hxx
        exact hnd.1 (hxx ▸ List.mem_map_of_mem Prod.fst hx)
      rw [hrest]
    · rw [List.filter_cons_of_neg (by simp [he]), alGet, if_neg (fun hh => he hh.symm)]
      exact ih hnd.2

/-- C6 (amended): the Deleted-filtered historical view (`GitRemovedRepo`)
yields a pseudo-package for a given category/package/version iff the cache
entry records at least one Deleted tuple for that version — recency of the
recorded statuses plays no role. -/
theorem removed_repo_versions (d : GitData) (cat pkg v : String)
    (hnd : (((alGet pkg [] (alGet cat [] d)) : StatusMap).map Prod.fst).Nodup) :
    (∃ q ∈ GitChangedRepo.gen_candidates GitRemovedRepo.statusFilter d cat pkg,
        q.version = v) ↔
      ∃ t ∈ lookupData d cat pkg 'D', t.ver = v := by
  have hc : ∀ e : Char × List CommitTuple,
      (GitRemovedRepo.statusFilter.contains e.1) = (e.1 == 'D') := by
    intro e
    simp only [GitRemovedRepo.statusFilter, List.contains]
    rw [Bool.eq_iff_iff]
    simp
  unfold GitChangedRepo.gen_candidates GitChangedRepo.get_versions
  rw [List.filter_congr (fun e _ => hc e)]
  rcases filter_fst_unique (alGet pkg [] (alGet cat [] d)) 'D' hnd with hf | hf
  · rw [hf]
    have hnil : lookupData d cat pkg 'D' = [] := alGet_of_filter_fst_nil _ _ hf
    rw [hnil]
    simp
  · rw [hf]
    simp only [List.flatMap_cons, List.flatMap_nil, List.append_nil, List.mem_map,
      lookupData]
    constructor
    · rintro ⟨q, ⟨t, ht, rfl⟩, hv⟩
      exact ⟨t, ht, hv⟩
    · rintro ⟨t, ht, hv⟩
      exact ⟨_, ⟨t, ht, rfl⟩, hv⟩

/-- A log in which version 1 of `cat/pkg` is first deleted and later re-added
(the re-add commit being the newer one): the cache entry then records both a
Deleted and an Added tuple for the same version. -/
def logRemAdd : List String :=
  [beginSentinel, "h1", "2020-02-01", "A <a@a>", "C <c@c>", "re-add", "",
   endSentinel, "A\tcat/pkg/pkg-1.ebuild",
   beginSentinel, "h2", "2020-01-01", "A <a@a>", "C <c@c>", "remove", "",
   endSentinel, "D\tcat/pkg/pkg-1.ebuild"]

/-- C6 counterexample: on the `logRemAdd` history the Deleted-filtered view
yields `cat/pkg` version 1, although the most recently recorded status for
that version is `A` (the re-add), not `D` — contradicting the claim's "only if
the most recently recorded status is Deleted". -/
theorem removed_repo_recency_cex :
    (∃ q ∈ GitChangedRepo.gen_candidates GitRemovedRepo.statusFilter
        (ParsedGitRepo.update logRemAdd [] false) "cat" "pkg", q.version = "1") ∧
      mostRecentStatusFor (ParsedGitRepo.update logRemAdd [] false) "cat" "pkg" "1" =
        some 'A' :=
  ⟨by decide, by decide⟩

/-- C6 witness: concrete instantiation of `removed_repo_versions` on the
`logRemAdd` cache entry. -/
theorem removed_repo_versions_witness :
    ((((alGet "pkg" [] (alGet "cat" [] (ParsedGitRepo.update logRemAdd [] false))) :
        StatusMap).map Prod.fst).Nodup) ∧
      ((∃ q ∈ GitChangedRepo.gen_candidates GitRemovedRepo.statusFilter
          (ParsedGitRepo.update logRemAdd [] false) "cat" "pkg", q.version = "1") ↔
        ∃ t ∈ lookupData (ParsedGitRepo.update logRemAdd [] false) "cat" "pkg" 'D',
          t.ver = "1") :=
  ⟨by decide,
    removed_repo_versions (ParsedGitRepo.update logRemAdd [] false) "cat" "pkg" "1"
      (by decide)⟩

/-! ### C8 -/

/-- C8: whenever acquisition succeeds, the release step runs for every outcome
of the enclosed scan — including an exception propagating out of the body —
and it invokes the stash restore exactly when a shelving was performed during
acquisition; in particular a scan that performed no shelving never triggers a
restore. -/
theorem stash_guard_release (α : Type) (env : StashEnv) (body : Except GuardError α)
    (stashed : Bool) (h : GitStash.enter env = .ok stashed) :
    (runScanWithStash env body).exitRan = true ∧
      (runScanWithStash env body).restoreInvoked = stashed := by
  unfold runScanWithStash
  rw [h]
  unfold GitStash.leave
  cases stashed <;> simp

/-- C8 witness: a dirty tree is shelved; the body raises; release still runs
and invokes the restore. -/
theorem stash_guard_release_witness :
    GitStash.enter ⟨0, "x", true, "", true, ""⟩ = .ok true ∧
      ((runScanWithStash ⟨0, "x", true, "", true, ""⟩
          (.error (.parserError "boom") : Except GuardError Unit)).exitRan = true ∧
        (runScanWithStash ⟨0, "x", true, "", true, ""⟩
          (.error (.parserError "boom") : Except GuardError Unit)).restoreInvoked = true) :=
  ⟨by decide,
    stash_guard_release Unit ⟨0, "x", true, "", true, ""⟩
      (.error (.parserError "boom")) true (by decide)⟩

/-! ### C10 -/

/-- C10: if `git ls-files` exits with a non-zero status during acquisition,
the guard behaves exactly as on a clean tree: no shelve is attempted and no
error is raised (`__enter__` returns with the flag unset), the scan body runs
and its outcome propagates unchanged, and release performs no restore. -/
theorem stash_enter_lsfail (α : Type) (env : StashEnv) (body : Except GuardError α)
    (h : env.lsReturncode ≠ 0) :
    GitStash.enter env = .ok false ∧
      (runScanWithStash env body).stashed = false ∧
      (runScanWithStash env body).restoreInvoked = false ∧
      (runScanWithStash env body).exitRan = true ∧
      (runScanWithStash env body).outcome = body := by
  have he : GitStash.enter env = .ok false := by
    unfold GitStash.enter
    rw [if_pos (Or.inl h)]
  refine ⟨he, ?_⟩
  unfold runScanWithStash
  rw [he]
  simp [GitStash.leave]

/-- C10 witness: `ls-files` failing with exit code 1 over a tree that even has
output; the guard stays inert and the body's success propagates. -/
theorem stash_enter_lsfail_witness :
    (StashEnv.lsReturncode ⟨1, "dirty", true, "", true, ""⟩ ≠ 0) ∧
      (GitStash.enter ⟨1, "dirty", true, "", true, ""⟩ = .ok false ∧
        (runScanWithStash ⟨1, "dirty", true, "", true, ""⟩
            (.ok () : Except GuardError Unit)).stashed = false ∧
        (runScanWithStash ⟨1, "dirty", true, "", true, ""⟩
            (.ok () : Except GuardError Unit)).restoreInvoked = false ∧
        (runScanWithStash ⟨1, "dirty", true, "", true, ""⟩
            (.ok () : Except GuardError Unit)).exitRan = true ∧
        (runScanWithStash ⟨1, "dirty", true, "", true, ""⟩
            (.ok () : Except GuardError Unit)).outcome = .ok ()) :=
  ⟨by decide, stash_enter_lsfail Unit ⟨1, "dirty", true, "", true, ""⟩ (.ok ()) (by decide)⟩

/-! ### C9 -/

/-- C9: when the name-only diff against the reference produces no output, the
scope resolver terminates the scan cleanly via `parser.exit()` — a success
signal carrying no restriction — rather than returning an empty restriction or
raising an error. -/
theorem scan_commits_empty_diff : scan_commits_call [] (.ok "") = .exitClean := by
  simp [scan_commits_call]
